import Mathlib

/-!
Shallow embedding of the Portfolio Analytics Engine of
`Anti/api/ml_models.py`, together with proofs and refutations of its
specified properties.

Modelling conventions:
* Python/numpy floating-point numbers are modelled by `ℚ`.  Transcendental
  library routines (`np.exp`, `np.log`, `np.sqrt`, `scipy.stats.norm.cdf`,
  `scipy.stats.norm.pdf`) have no rational closed form; each is passed as an
  explicit function parameter of type `ℚ → ℚ` standing for the corresponding
  float routine.  Where IEEE special values (inf, nan) matter, floats are
  modelled by the four-constructor type `F` below.
* `np.random.standard_normal((n, T))` is modelled by an explicit shock matrix
  `Z : ℕ → ℕ → ℚ` (row `i`, column `t`); the process-global numpy RNG is
  modelled by a stream `g : ℕ → ℚ` of draws together with a cursor position
  that advances by `n*T` per call (row-major fill order).
* A GBM price value `S0 * exp(x)` is represented exactly by the pair
  `(S0, x)`: coefficient and exponent.  Two such pairs are equal iff the
  represented reals `S0 * exp(x)` agree, whenever the coefficients are equal.
-/

namespace MLModels

/-- One step of `MonteCarloSimulator.simulate_gbm`: the log-return
`drift + diffusion = (mu - 0.5*sigma**2)*dt + sigma*np.sqrt(dt)*z`,
with `sdt` the float value of `np.sqrt(dt)`. -/
def logReturn (mu sigma dt sdt z : ℚ) : ℚ :=
  (mu - sigma ^ 2 / 2) * dt + sigma * sdt * z

/-- Entry `(i, t)` of `np.cumsum(log_returns, axis=1)` in `simulate_gbm`. -/
def pathExponent (Z : ℕ → ℕ → ℚ) (mu sigma dt sdt : ℚ) (i t : ℕ) : ℚ :=
  ∑ u ∈ Finset.range (t + 1), logReturn mu sigma dt sdt (Z i u)

/-- `simulate_gbm`: the price of path `i` at day `t` is
`S0 * np.exp(cumsum)`; it is represented exactly as the pair
(coefficient `S0`, exponent `cumsum`). -/
def simulate_gbm (Z : ℕ → ℕ → ℚ) (S0 mu sigma dt sdt : ℚ) (i t : ℕ) : ℚ × ℚ :=
  (S0, pathExponent Z mu sigma dt sdt i t)

/-- The two instance fields set by `MonteCarloSimulator.__init__`. -/
structure SimState where
  n_simulations : ℕ
  time_horizon : ℕ
  deriving DecidableEq

/-- The global-RNG shock matrix: `np.random.standard_normal((n, T))` fills
row-major from the RNG stream `g` starting at cursor `pos`, so entry `(i, t)`
is draw number `pos + i*T + t`. -/
def streamZ (g : ℕ → ℚ) (pos T : ℕ) : ℕ → ℕ → ℚ :=
  fun i t => g (pos + (i * T + t))

/-- `simulate_gbm` as actually executed: it has no `seed` parameter and reads
`self.n_simulations * self.time_horizon` draws from the process-global RNG,
advancing its cursor.  Returns the paths and the advanced cursor. -/
def simulate_gbm_rng (g : ℕ → ℚ) (pos : ℕ) (st : SimState) (S0 mu sigma dt sdt : ℚ) :
    (ℕ → ℕ → ℚ × ℚ) × ℕ :=
  (simulate_gbm (streamZ g pos st.time_horizon) S0 mu sigma dt sdt,
   pos + st.n_simulations * st.time_horizon)

/-- Round-half-to-even of a rational to an integer, the rounding used by
the Python builtin `round` (ties go to the even integer). -/
def roundHalfEven (x : ℚ) : ℤ :=
  let n := ⌊x⌋
  let f := x - n
  if f < 1/2 then n
  else if 1/2 < f then n + 1
  else if 2 ∣ n then n else n + 1

/-- `round(x, k)` with `p = 10^k`: the Python builtin used throughout
`ml_models.py` (`roundQ 100 x` is `round(x, 2)`). -/
def roundQ (p : ℚ) (x : ℚ) : ℚ :=
  (roundHalfEven (x * p) : ℚ) / p

/-- Ascending sort of the terminal values (`np.percentile` / `np.median`
sort internally; the embedding uses insertion sort, which computes the same
sorted list). -/
def sortedVals (xs : List ℚ) : List ℚ :=
  List.insertionSort (· ≤ ·) xs

/-- `np.mean` (junk value `0` on the empty list, where numpy returns nan). -/
def meanQ (xs : List ℚ) : ℚ :=
  xs.sum / xs.length

/-- `np.median`: middle element of the sorted list, or the average of the
two middle elements for even length. -/
def medianQ (xs : List ℚ) : ℚ :=
  let s := sortedVals xs
  let n := xs.length
  if n % 2 = 1 then s.getD (n / 2) 0
  else (s.getD (n / 2 - 1) 0 + s.getD (n / 2) 0) / 2

/-- `np.percentile(xs, q)` with the default linear interpolation: virtual
index `h = q/100 * (n-1)`, lower index `i = floor h`, result
`a + (h - i) * (b - a)` where `a, b` are the sorted values at `i`, `i+1`
(`b` clipped to `a` when `i+1` is out of range, which for `q ∈ [0,100]`
only happens when the fraction is zero). -/
def percentileQ (xs : List ℚ) (q : ℚ) : ℚ :=
  let s := sortedVals xs
  let h : ℚ := q / 100 * ((xs.length : ℚ) - 1)
  let i : ℕ := (⌊h⌋).toNat
  let a := s.getD i 0
  let b := s.getD (i + 1) a
  a + (h - (i : ℚ)) * (b - a)

/-- `np.sum(final_values < current_nav)`: number of terminal values strictly
below the starting NAV. -/
def countBelow (xs : List ℚ) (s0 : ℚ) : ℕ :=
  (xs.filter fun x => decide (x < s0)).length

/-- The list `simulations[:, -1]` of terminal values: path `i`'s value is
`current_nav * exp(cumsum at day days-1)`, with `ex` standing for the float
`np.exp`. -/
def finalValuesOf (ex : ℚ → ℚ) (Z : ℕ → ℕ → ℚ) (n days : ℕ)
    (nav mu sigma sdt : ℚ) : List ℚ :=
  (List.range n).map fun i => nav * ex (pathExponent Z mu sigma (1/252) sdt i (days - 1))

/-- The summary returned by `MonteCarloSimulator.predict_nav` (the random
`sample_paths` subsample is omitted: only whether drawing it succeeds is
modelled; the `confidence_intervals` dict repeats the percentiles). -/
structure NavResult where
  mean_nav : ℚ
  median_nav : ℚ
  std_dev : ℚ
  expected_return_pct : ℚ
  p5 : ℚ
  p25 : ℚ
  p50 : ℚ
  p75 : ℚ
  p95 : ℚ
  var_95 : ℚ
  var_99 : ℚ
  cvar_95 : ℚ
  probability_of_loss : ℚ
  nSims : ℕ
  deriving DecidableEq

/-- `MonteCarloSimulator.predict_nav` with explicit state passing.  The
method first mutates `self.time_horizon := days`, simulates, derives the
statistics, draws a 10-path sample without replacement (`np.random.choice`
raises `ValueError` when the population `n_simulations` is smaller than 10),
and only then restores `self.time_horizon`.  `ex` and `sq` stand for the
float `np.exp` and `np.sqrt`; `Z` is the shock matrix of the call.  `days = 0`
raises `IndexError` at `simulations[:, -1]`.  The returned pair is
(result-or-exception, final state). -/
def predict_nav (ex sq : ℚ → ℚ) (Z : ℕ → ℕ → ℚ) (st : SimState)
    (current_nav annual_return volatility : ℚ) (days : ℕ) :
    Except String NavResult × SimState :=
  let st1 : SimState := { st with time_horizon := days }
  let mu := annual_return / 100
  let sigma := volatility / 100
  if days = 0 then
    (Except.error "IndexError: index -1 is out of bounds for axis 1 with size 0", st1)
  else
    let final := finalValuesOf ex Z st1.n_simulations days current_nav mu sigma (sq (1/252))
    let mean_nav := meanQ final
    let p5 := percentileQ final 5
    let var_95 := current_nav - p5
    let var_99 := current_nav - percentileQ final 1
    let cvar_95 := current_nav - meanQ (final.filter fun x => decide (x ≤ p5))
    let expected_return := (mean_nav / current_nav - 1) * 100
    let prob_loss := (countBelow final current_nav : ℚ) / (st1.n_simulations : ℚ) * 100
    if 10 > st1.n_simulations then
      (Except.error "ValueError: cannot take a larger sample than population when replace is False", st1)
    else
      (Except.ok {
        mean_nav := roundQ 100 mean_nav
        median_nav := roundQ 100 (medianQ final)
        std_dev := roundQ 100 (sq (meanQ (final.map fun x => (x - mean_nav) ^ 2)))
        expected_return_pct := roundQ 100 expected_return
        p5 := roundQ 100 p5
        p25 := roundQ 100 (percentileQ final 25)
        p50 := roundQ 100 (percentileQ final 50)
        p75 := roundQ 100 (percentileQ final 75)
        p95 := roundQ 100 (percentileQ final 95)
        var_95 := roundQ 100 var_95
        var_99 := roundQ 100 var_99
        cvar_95 := roundQ 100 cvar_95
        probability_of_loss := roundQ 100 prob_loss
        nSims := st1.n_simulations },
       { st1 with time_horizon := st.time_horizon })

/-- Python `enumerate`: pair each element with its index, starting at `k`. -/
def enumFromQ (k : ℕ) : List ℚ → List (ℕ × ℚ)
  | [] => []
  | x :: t => (k, x) :: enumFromQ (k + 1) t

/-- The allocation-assembly stage of `create_portfolio_optimizer`: for each
`(i, weight)` in `enumerate(optimal_weights)` keep the entry iff
`weight > 0.01`, record `(fund_id, round(weight*100, 2))` (the id of fund
`i` is `fid i`; `scheme_name` is a string copied unchanged and omitted
here), then sort descending by the recorded weight.  The solver output
`optimal_weights` is the input.  No renormalization is performed. -/
def create_portfolio_allocations (fid : ℕ → ℕ) (ws : List ℚ) : List (ℕ × ℚ) :=
  let entries := ((enumFromQ 0 ws).filter fun p => decide ((1:ℚ)/100 < p.2)).map
    fun p => (fid p.1, roundQ 100 (p.2 * 100))
  List.insertionSort (fun a b => b.2 ≤ a.2) entries

/-- A float value for the degenerate-input analysis of the closed-form
pricing code: finite (as a rational), +inf, -inf, or nan.  Negative zero is
not modelled (a division by `0` is treated as a division by `+0`), which is
faithful for all expressions analysed here. -/
inductive F where
  | fin (q : ℚ)
  | pinf
  | ninf
  | nan
  deriving DecidableEq

/-- IEEE negation. -/
def F.neg : F → F
  | fin q => fin (-q)
  | pinf => ninf
  | ninf => pinf
  | nan => nan

/-- IEEE addition (`inf + (-inf) = nan`). -/
def F.add : F → F → F
  | fin a, fin b => fin (a + b)
  | nan, _ => nan
  | _, nan => nan
  | pinf, ninf => nan
  | ninf, pinf => nan
  | pinf, _ => pinf
  | _, pinf => pinf
  | ninf, _ => ninf
  | _, ninf => ninf

/-- IEEE subtraction. -/
def F.sub (a b : F) : F := a.add b.neg

/-- IEEE multiplication (`0 * inf = nan`). -/
def F.mul : F → F → F
  | fin a, fin b => fin (a * b)
  | nan, _ => nan
  | _, nan => nan
  | fin a, pinf => if 0 < a then pinf else if a < 0 then ninf else nan
  | pinf, fin b => if 0 < b then pinf else if b < 0 then ninf else nan
  | fin a, ninf => if 0 < a then ninf else if a < 0 then pinf else nan
  | ninf, fin b => if 0 < b then ninf else if b < 0 then pinf else nan
  | pinf, pinf => pinf
  | ninf, ninf => pinf
  | pinf, ninf => ninf
  | ninf, pinf => ninf

/-- IEEE division (`x/0 = ±inf` for `x ≠ 0`, `0/0 = nan`, `inf/inf = nan`;
the divisor `0` is treated as `+0`). -/
def F.div : F → F → F
  | nan, _ => nan
  | _, nan => nan
  | fin a, fin b =>
      if b = 0 then (if 0 < a then pinf else if a < 0 then ninf else nan)
      else fin (a / b)
  | fin _, pinf => fin 0
  | fin _, ninf => fin 0
  | pinf, fin b => if 0 ≤ b then pinf else ninf
  | ninf, fin b => if 0 ≤ b then ninf else pinf
  | pinf, pinf => nan
  | pinf, ninf => nan
  | ninf, pinf => nan
  | ninf, ninf => nan

/-- `scipy.stats.norm.cdf` on `F`: `cdf(+inf) = 1`, `cdf(-inf) = 0`,
`cdf(nan) = nan`; on finite values the float routine `phi`. -/
def normCdfF (phi : ℚ → ℚ) : F → F
  | F.fin q => F.fin (phi q)
  | F.pinf => F.fin 1
  | F.ninf => F.fin 0
  | F.nan => F.nan

/-- `scipy.stats.norm.pdf` on `F`: `pdf(±inf) = 0`, `pdf(nan) = nan`;
on finite values the float routine `pdf`. -/
def normPdfF (pdf : ℚ → ℚ) : F → F
  | F.fin q => F.fin (pdf q)
  | F.pinf => F.fin 0
  | F.ninf => F.fin 0
  | F.nan => F.nan

/-- `np.log` on `F`: `log 1 = 0` exactly, `log 0 = -inf`, `log x = nan` for
`x < 0`; on other positive finite values the float routine `lg`. -/
def logF (lg : ℚ → ℚ) : F → F
  | F.fin q =>
      if q = 1 then F.fin 0
      else if 0 < q then F.fin (lg q)
      else if q = 0 then F.ninf
      else F.nan
  | F.pinf => F.pinf
  | F.ninf => F.nan
  | F.nan => F.nan

/-- `np.sqrt` on `F`: `sqrt 0 = 0` and `sqrt 1 = 1` exactly, `sqrt x = nan`
for `x < 0`; on other positive finite values the float routine `sq`. -/
def sqrtF (sq : ℚ → ℚ) : F → F
  | F.fin q =>
      if q = 0 then F.fin 0
      else if q = 1 then F.fin 1
      else if 0 < q then F.fin (sq q)
      else F.nan
  | F.pinf => F.pinf
  | F.ninf => F.nan
  | F.nan => F.nan

/-- `np.exp` on `F`: `exp 0 = 1` exactly, `exp (-inf) = 0`, `exp (+inf) = +inf`;
on other finite values the float routine `exq`. -/
def expF (exq : ℚ → ℚ) : F → F
  | F.fin q => if q = 0 then F.fin 1 else F.fin (exq q)
  | F.pinf => F.pinf
  | F.ninf => F.fin 0
  | F.nan => F.nan

/-- Python `round(x, k)` (`p = 10^k`) on `F`: `round` of `inf`/`nan` with an
`ndigits` argument returns the value unchanged. -/
def roundFQ (p : ℚ) : F → F
  | F.fin q => F.fin (roundQ p q)
  | x => x

/-- `BlackScholesModel.calculate_d1_d2`:
`d1 = (np.log(S/K) + (r + 0.5*sigma**2)*T) / (sigma*np.sqrt(T))`,
`d2 = d1 - sigma*np.sqrt(T)`; the purely finite subexpression
`(r + 0.5*sigma**2)*T` is collapsed to its rational value. -/
def calculate_d1_d2 (lg sq : ℚ → ℚ) (S K r sigma T : ℚ) : F × F :=
  let sqT := sqrtF sq (F.fin T)
  let d1 := F.div (F.add (logF lg (F.div (F.fin S) (F.fin K)))
    (F.fin ((r + sigma ^ 2 / 2) * T))) (F.mul (F.fin sigma) sqT)
  (d1, F.sub d1 (F.mul (F.fin sigma) sqT))

/-- `BlackScholesModel.put_price`:
`K * np.exp(-r*T) * norm.cdf(-d2) - S * norm.cdf(-d1)`. -/
def put_price (phi lg sq exq : ℚ → ℚ) (S K r sigma T : ℚ) : F :=
  let dd := calculate_d1_d2 lg sq S K r sigma T
  F.sub
    (F.mul (F.mul (F.fin K) (expF exq (F.fin (-(r * T))))) (normCdfF phi (F.neg dd.2)))
    (F.mul (F.fin S) (normCdfF phi (F.neg dd.1)))

/-- The dict returned by `BlackScholesModel.calculate_greeks`. -/
structure GreeksResult where
  delta_call : F
  delta_put : F
  gamma : F
  theta_call : F
  theta_put : F
  vega : F
  rho_call : F
  rho_put : F
  deriving DecidableEq

/-- `BlackScholesModel.calculate_greeks`, fields rounded as in the source
(delta 4, gamma 6, theta per-day 4, vega and rho per-percent 4). -/
def calculate_greeks (phi pdf lg sq exq : ℚ → ℚ) (S K r sigma T : ℚ) : GreeksResult :=
  let dd := calculate_d1_d2 lg sq S K r sigma T
  let d1 := dd.1
  let d2 := dd.2
  let delta_call := normCdfF phi d1
  { delta_call := roundFQ 10000 delta_call
    delta_put := roundFQ 10000 (F.sub delta_call (F.fin 1))
    gamma := roundFQ 1000000 (F.div (normPdfF pdf d1)
      (F.mul (F.mul (F.fin S) (F.fin sigma)) (sqrtF sq (F.fin T))))
    theta_call := roundFQ 10000 (F.div
      (F.sub
        (F.div (F.neg (F.mul (F.mul (F.fin S) (normPdfF pdf d1)) (F.fin sigma)))
          (F.mul (F.fin 2) (sqrtF sq (F.fin T))))
        (F.mul (F.mul (F.fin (r * K)) (expF exq (F.fin (-(r * T))))) (normCdfF phi d2)))
      (F.fin 365))
    theta_put := roundFQ 10000 (F.div
      (F.add
        (F.div (F.neg (F.mul (F.mul (F.fin S) (normPdfF pdf d1)) (F.fin sigma)))
          (F.mul (F.fin 2) (sqrtF sq (F.fin T))))
        (F.mul (F.mul (F.fin (r * K)) (expF exq (F.fin (-(r * T)))))
          (normCdfF phi (F.neg d2))))
      (F.fin 365))
    vega := roundFQ 10000 (F.div
      (F.mul (F.mul (F.fin S) (sqrtF sq (F.fin T))) (normPdfF pdf d1)) (F.fin 100))
    rho_call := roundFQ 10000 (F.div
      (F.mul (F.mul (F.fin (K * T)) (expF exq (F.fin (-(r * T))))) (normCdfF phi d2))
      (F.fin 100))
    rho_put := roundFQ 10000 (F.div
      (F.mul (F.mul (F.fin (-K * T)) (expF exq (F.fin (-(r * T)))))
        (normCdfF phi (F.neg d2)))
      (F.fin 100)) }

/-- The dict returned by `BlackScholesModel.calculate_risk_premium`. -/
structure RiskPremiumResult where
  expected_return : F
  risk_free_rate : F
  risk_premium : F
  sharpe_ratio : F
  prob_beat_risk_free : F
  protection_cost : F
  protection_cost_pct : F
  deriving DecidableEq

/-- `BlackScholesModel.calculate_risk_premium`.  The source contains no
input validation and no raise statement: the Sharpe ratio is guarded by
`if volatility > 0 else 0`, and the probability `d` divides by
`volatility * np.sqrt(time_horizon)` unguarded (a zero denominator yields an
IEEE infinity under the module-wide `warnings.filterwarnings('ignore')`,
not an exception). -/
def calculate_risk_premium (phi lg sq exq : ℚ → ℚ)
    (current_nav expected_nav volatility risk_free_rate time_horizon : ℚ) :
    RiskPremiumResult :=
  let expected_return := F.sub (F.div (F.fin expected_nav) (F.fin current_nav)) (F.fin 1)
  let risk_premium := F.sub expected_return (F.fin risk_free_rate)
  let sharpe := if 0 < volatility then F.div risk_premium (F.fin volatility) else F.fin 0
  let d := F.div (F.sub expected_return (F.fin risk_free_rate))
    (F.mul (F.fin volatility) (sqrtF sq (F.fin time_horizon)))
  let prob := normCdfF phi d
  let protection := put_price phi lg sq exq current_nav current_nav risk_free_rate
    volatility time_horizon
  { expected_return := roundFQ 100 (F.mul expected_return (F.fin 100))
    risk_free_rate := roundFQ 100 (F.mul (F.fin risk_free_rate) (F.fin 100))
    risk_premium := roundFQ 100 (F.mul risk_premium (F.fin 100))
    sharpe_ratio := roundFQ 1000 sharpe
    prob_beat_risk_free := roundFQ 100 (F.mul prob (F.fin 100))
    protection_cost := roundFQ 100 protection
    protection_cost_pct := roundFQ 100 (F.mul (F.div protection (F.fin current_nav))
      (F.fin 100)) }

/-- `BlackScholesModel.calculate_d1_d2` in exact (finite-regime) arithmetic:
for `S, K, sigma, T > 0` every intermediate float is finite, so the IEEE
specials of `F` cannot arise and the computation is plain field arithmetic
with `lg`/`sq` standing for the float log and sqrt. -/
def calculate_d1_d2R (lg sq : ℚ → ℚ) (S K r sigma T : ℚ) : ℚ × ℚ :=
  let d1 := (lg (S / K) + (r + sigma ^ 2 / 2) * T) / (sigma * sq T)
  (d1, d1 - sigma * sq T)

/-- `BlackScholesModel.call_price` in finite-regime arithmetic:
`S * norm.cdf(d1) - K * np.exp(-r*T) * norm.cdf(d2)`. -/
def call_priceR (phi lg sq exq : ℚ → ℚ) (S K r sigma T : ℚ) : ℚ :=
  let dd := calculate_d1_d2R lg sq S K r sigma T
  S * phi dd.1 - K * exq (-(r * T)) * phi dd.2

/-- `BlackScholesModel.put_price` in finite-regime arithmetic:
`K * np.exp(-r*T) * norm.cdf(-d2) - S * norm.cdf(-d1)`. -/
def put_priceR (phi lg sq exq : ℚ → ℚ) (S K r sigma T : ℚ) : ℚ :=
  let dd := calculate_d1_d2R lg sq S K r sigma T
  K * exq (-(r * T)) * phi (-dd.2) - S * phi (-dd.1)

/-- Executable determinant (Laplace expansion along the first column); the
evaluable counterpart of the determinant underlying `np.linalg.inv`. -/
def detQ : (n : ℕ) → Matrix (Fin n) (Fin n) ℚ → ℚ
  | 0, _ => 1
  | n + 1, A =>
      ∑ i : Fin (n + 1), (-1) ^ (i : ℕ) * A i 0 * detQ n (A.submatrix i.succAbove Fin.succ)

/-- Executable adjugate. -/
def adjQ (n : ℕ) (A : Matrix (Fin n) (Fin n) ℚ) : Matrix (Fin n) (Fin n) ℚ :=
  Matrix.of fun i j => detQ n (A.updateRow j (Pi.single i 1))

/-- `np.linalg.inv`: raises `LinAlgError` on a singular matrix (modelled as
`none`), otherwise returns the inverse `det⁻¹ • adjugate`. -/
def matInv (n : ℕ) (A : Matrix (Fin n) (Fin n) ℚ) : Option (Matrix (Fin n) (Fin n) ℚ) :=
  if detQ n A = 0 then none else some ((detQ n A)⁻¹ • adjQ n A)

/-- `BlackLittermanModel.incorporate_views`: `tau_sigma = tau * cov`; when
`omega` is omitted, `omega = np.diag(np.diag(P @ tau_sigma @ P.T))`;
posterior precision `= tau_sigma⁻¹ + P.T @ omega⁻¹ @ P`; posterior
covariance-of-mean `= precision⁻¹`; posterior mean
`= posterior_cov @ (tau_sigma⁻¹ @ pi + P.T @ omega⁻¹ @ Q)`; returns
`(posterior_mean, posterior_cov + cov)`.  Any singular inversion yields
`none` (numpy's `LinAlgError`). -/
def incorporate_views (n k : ℕ) (tau : ℚ) (pi : Fin n → ℚ)
    (cov_matrix : Matrix (Fin n) (Fin n) ℚ) (P : Matrix (Fin k) (Fin n) ℚ)
    (Q : Fin k → ℚ) (omega : Option (Matrix (Fin k) (Fin k) ℚ)) :
    Option ((Fin n → ℚ) × Matrix (Fin n) (Fin n) ℚ) :=
  let tau_sigma := tau • cov_matrix
  let om := omega.getD (Matrix.diagonal fun i => (P * tau_sigma * P.transpose) i i)
  match matInv n tau_sigma, matInv k om with
  | some tau_sigma_inv, some omega_inv =>
      let posterior_precision := tau_sigma_inv + P.transpose * omega_inv * P
      match matInv n posterior_precision with
      | some posterior_cov =>
          some (posterior_cov.mulVec (tau_sigma_inv.mulVec pi +
            (P.transpose * omega_inv).mulVec Q), posterior_cov + cov_matrix)
      | none => none
  | _, _ => none

/-- The unique weights meeting the two equality constraints
`w1 + w2 = 1`, `w1*mu1 + w2*mu2 = t` of the frontier solve, for two assets
with distinct expected returns. -/
def frontierWeight2 (mu1 mu2 t : ℚ) : ℚ × ℚ :=
  ((t - mu2) / (mu1 - mu2), (mu1 - t) / (mu1 - mu2))

/-- `portfolio_variance(w) = w @ cov_matrix @ w` for two assets. -/
def portfolio_variance2 (c11 c12 c22 w1 w2 : ℚ) : ℚ :=
  w1 * w1 * c11 + 2 * (w1 * w2 * c12) + w2 * w2 * c22

/-- The minimum (here: unique feasible) portfolio variance at target return
`t` for two assets.  Modelled from the spec: the SLSQP minimum-variance
solve of `generate_efficient_frontier` (spec 4.5, `scipy.optimize.minimize`)
is modelled as the exact constrained minimizer; with two assets the two
equality constraints determine the weights uniquely, so the minimizer is
closed-form and solver-independent. -/
def frontierVar2 (mu1 mu2 c11 c12 c22 t : ℚ) : ℚ :=
  portfolio_variance2 c11 c12 c22 (frontierWeight2 mu1 mu2 t).1 (frontierWeight2 mu1 mu2 t).2

/-- `np.linspace(a, b, nPoints)`: evenly spaced samples, endpoints included. -/
def linspaceQ (a b : ℚ) (nPoints : ℕ) : List ℚ :=
  (List.range nPoints).map fun k : ℕ => a + (k : ℚ) * ((b - a) / ((nPoints : ℚ) - 1))

/-- `generate_efficient_frontier` for two assets: target returns on a grid
from `min(mu)` to `max(mu)` (default 50 points); every grid point returns a
`(target_return, variance)` pair (the reported volatility is
`sqrt(variance)`; no point is dropped since each solve has a unique feasible
point). -/
def generate_efficient_frontier2 (mu1 mu2 c11 c12 c22 : ℚ) (nPoints : ℕ) : List (ℚ × ℚ) :=
  (linspaceQ (min mu1 mu2) (max mu1 mu2) nPoints).map
    fun t => (t, frontierVar2 mu1 mu2 c11 c12 c22 t)

/-- C4 (counterexample): `simulate_gbm` has no seed parameter, so "identical
seed" cannot be requested; two consecutive calls with identical `s0, mu,
sigma, horizon_days, n_paths` read different positions of the global RNG
stream and return different path arrays.  Concretely, with the draw stream
`g k = k`, a 1-path 1-day simulation returns a different day-0 value on the
second call. -/
theorem simulate_gbm_repeat_call_differs :
    (simulate_gbm_rng (fun k => (k : ℚ)) 0 ⟨1, 1⟩ 1 0 1 (1/252) 1).1 0 0 ≠
    (simulate_gbm_rng (fun k => (k : ℚ))
      (simulate_gbm_rng (fun k => (k : ℚ)) 0 ⟨1, 1⟩ 1 0 1 (1/252) 1).2
      ⟨1, 1⟩ 1 0 1 (1/252) 1).1 0 0 := by
  simp only [simulate_gbm_rng, simulate_gbm, streamZ, pathExponent, logReturn,
    Finset.range_one, Finset.sum_singleton, Prod.mk.injEq, ne_eq, not_and]
  intro h
  norm_num

/-- C4 (amended): the paths are a deterministic function of the consumed RNG
draws: if two calls read equal draw values at every consumed stream position
(in particular, if the RNG is in an identical state), they return identical
path arrays. -/
theorem simulate_gbm_deterministic_in_draws
    (g1 g2 : ℕ → ℚ) (p1 p2 : ℕ) (st : SimState) (S0 mu sigma dt sdt : ℚ)
    (h : ∀ j, j < st.n_simulations * st.time_horizon → g1 (p1 + j) = g2 (p2 + j))
    (i t : ℕ) (hi : i < st.n_simulations) (ht : t < st.time_horizon) :
    (simulate_gbm_rng g1 p1 st S0 mu sigma dt sdt).1 i t =
    (simulate_gbm_rng g2 p2 st S0 mu sigma dt sdt).1 i t := by
  simp only [simulate_gbm_rng, simulate_gbm, streamZ, pathExponent, Prod.mk.injEq, true_and]
  refine Finset.sum_congr rfl fun u hu => ?_
  have hu' : u ≤ t := Nat.lt_succ_iff.mp (Finset.mem_range.mp hu)
  have hlt : i * st.time_horizon + u < st.n_simulations * st.time_horizon := by
    calc i * st.time_horizon + u < i * st.time_horizon + st.time_horizon :=
          Nat.add_lt_add_left (lt_of_le_of_lt hu' ht) _
    _ = (i + 1) * st.time_horizon := by ring
    _ ≤ st.n_simulations * st.time_horizon :=
          Nat.mul_le_mul_right _ (Nat.succ_le_of_lt hi)
  rw [h _ hlt]

/-- C4 (witness): the amended determinism theorem applied at a concrete
input: one path, one day, equal streams read from equal cursors. -/
theorem simulate_gbm_deterministic_in_draws_witness :
    (∀ j, j < (SimState.mk 1 1).n_simulations * (SimState.mk 1 1).time_horizon →
      (fun k => (k : ℚ)) (0 + j) = (fun k => (k : ℚ)) (0 + j)) ∧
    (simulate_gbm_rng (fun k => (k : ℚ)) 0 ⟨1, 1⟩ 1 0 1 (1/252) 1).1 0 0 =
    (simulate_gbm_rng (fun k => (k : ℚ)) 0 ⟨1, 1⟩ 1 0 1 (1/252) 1).1 0 0 :=
  ⟨fun _ _ => rfl,
   simulate_gbm_deterministic_in_draws (fun k => (k : ℚ)) (fun k => (k : ℚ))
     0 0 ⟨1, 1⟩ 1 0 1 (1/252) 1 (fun _ _ => rfl) 0 0 (by norm_num) (by norm_num)⟩

/-- C5: with `sigma = 0` (and the default `dt = 1/252` used by
`predict_nav`), every path is the deterministic exponential-drift path: the
terminal value of every path `i < n_paths` equals
`s0 * exp(mu * horizon_days / 252)` (pair representation), so all terminal
values coincide; no exception is raised (the embedding is total). -/
theorem simulate_gbm_sigma_zero_degenerate
    (Z : ℕ → ℕ → ℚ) (S0 mu sdt : ℚ) (n days : ℕ)
    (hn : 0 < n) (hd : 0 < days) (i i' : ℕ) (hi : i < n) (hi' : i' < n) :
    simulate_gbm Z S0 mu 0 (1/252) sdt i (days - 1) = (S0, mu * days / 252) ∧
    simulate_gbm Z S0 mu 0 (1/252) sdt i (days - 1) =
      simulate_gbm Z S0 mu 0 (1/252) sdt i' (days - 1) := by
  have key : ∀ j : ℕ, pathExponent Z mu 0 (1/252) sdt j (days - 1) = mu * days / 252 := by
    intro j
    have hconst : ∀ u ∈ Finset.range (days - 1 + 1),
        logReturn mu 0 (1/252) sdt (Z j u) = mu * (1/252) := by
      intro u _
      simp only [logReturn]
      ring
    rw [pathExponent, Finset.sum_congr rfl hconst, Finset.sum_const, Finset.card_range,
      Nat.sub_add_cancel hd, nsmul_eq_mul]
    ring
  constructor
  · simp only [simulate_gbm, Prod.mk.injEq, true_and]
    exact key i
  · simp only [simulate_gbm, Prod.mk.injEq, true_and]
    rw [key i, key i']

/-- C5 (witness): the degenerate-volatility theorem applied at a concrete
input: 2 paths, 3 days, nonzero shocks. -/
theorem simulate_gbm_sigma_zero_degenerate_witness :
    0 < 2 ∧ 0 < 3 ∧ 0 < 2 ∧ 1 < 2 ∧
    (simulate_gbm (fun i t => (i : ℚ) + t) 100 (1/10) 0 (1/252) (7/4) 0 (3 - 1)
        = (100, (1/10 : ℚ) * 3 / 252) ∧
      simulate_gbm (fun i t => (i : ℚ) + t) 100 (1/10) 0 (1/252) (7/4) 0 (3 - 1)
        = simulate_gbm (fun i t => (i : ℚ) + t) 100 (1/10) 0 (1/252) (7/4) 1 (3 - 1)) :=
  ⟨by norm_num, by norm_num, by norm_num, by norm_num,
    by
      have h := simulate_gbm_sigma_zero_degenerate (fun i t => (i : ℚ) + t)
        100 (1/10) (7/4) 2 3 (by norm_num) (by norm_num) 0 1 (by norm_num) (by norm_num)
      exact_mod_cast h⟩

/-- C8 (counterexample): `predict_nav` is not free of observable side
effects across a raising call: with `n_simulations = 5` (so the 10-path
sample draw raises `ValueError`) and `days = 30`, the simulator is left with
`time_horizon = 30`, not its original `252`. -/
theorem predict_nav_mutates_on_raise :
    (predict_nav id id (fun _ _ => 0) ⟨5, 252⟩ 100 10 15 30).2 ≠ ⟨5, 252⟩ := by
  norm_num [predict_nav]

/-- C8 (amended): `time_horizon` is mutated to `days` for the duration of
the call and restored only on the normal-return path; whenever the call
raises (sample draw with fewer than 10 paths, or `days = 0`), the mutation
persists.  `n_simulations` is never written. -/
theorem predict_nav_state_frame (ex sq : ℚ → ℚ) (Z : ℕ → ℕ → ℚ) (st : SimState)
    (nav ret vol : ℚ) (days : ℕ) :
    (predict_nav ex sq Z st nav ret vol days).2 =
      if (predict_nav ex sq Z st nav ret vol days).1.isOk then st
      else { st with time_horizon := days } := by
  unfold predict_nav
  by_cases h1 : days = 0
  · simp [h1, Except.isOk, Except.toBool]
  · by_cases h2 : 10 > st.n_simulations
    · simp [h1, h2, Except.isOk, Except.toBool]
    · simp [h1, h2, Except.isOk, Except.toBool]

/-- C10: for valid inputs (`0 < days`, `0 < n_simulations`), `predict_nav`
returns normally iff `n_simulations ≥ 10`: with fewer than 10 paths the
sample draw without replacement raises an untyped `ValueError` even though
every statistic has already been computed from the simulated paths. -/
theorem predict_nav_sample_draw_requires_ten
    (ex sq : ℚ → ℚ) (Z : ℕ → ℕ → ℚ) (st : SimState) (nav ret vol : ℚ) (days : ℕ)
    (hd : 0 < days) (hn : 0 < st.n_simulations) :
    (predict_nav ex sq Z st nav ret vol days).1.isOk = true ↔
      10 ≤ st.n_simulations := by
  have h1 : ¬ days = 0 := Nat.pos_iff_ne_zero.mp hd
  unfold predict_nav
  by_cases h2 : 10 > st.n_simulations
  · simp [h1, h2, Except.isOk, Except.toBool]
  · simp [h1, h2, Except.isOk, Except.toBool]
    omega

/-- C10 (witness): the sample-draw theorem applied at `n_simulations = 5`
(raises) and at `n_simulations = 12` (succeeds), both with valid inputs. -/
theorem predict_nav_sample_draw_requires_ten_witness :
    ((0 < 30 ∧ 0 < (SimState.mk 5 252).n_simulations) ∧
      ((predict_nav id id (fun _ _ => 0) ⟨5, 252⟩ 100 10 15 30).1.isOk = true ↔
        10 ≤ (SimState.mk 5 252).n_simulations)) ∧
    ((0 < 30 ∧ 0 < (SimState.mk 12 252).n_simulations) ∧
      ((predict_nav id id (fun _ _ => 0) ⟨12, 252⟩ 100 10 15 30).1.isOk = true ↔
        10 ≤ (SimState.mk 12 252).n_simulations)) :=
  ⟨⟨⟨by norm_num, by norm_num⟩,
    predict_nav_sample_draw_requires_ten id id (fun _ _ => 0) ⟨5, 252⟩ 100 10 15 30
      (by norm_num) (by norm_num)⟩,
   ⟨⟨by norm_num, by norm_num⟩,
    predict_nav_sample_draw_requires_ten id id (fun _ _ => 0) ⟨12, 252⟩ 100 10 15 30
      (by norm_num) (by norm_num)⟩⟩

/-- Helper: the explicit normal-return value of `predict_nav` (valid `days`,
at least 10 paths), with the terminal-value list abbreviated as `F`. -/
theorem predict_nav_ok_eq (ex sq : ℚ → ℚ) (Z : ℕ → ℕ → ℚ) (st : SimState)
    (nav ret vol : ℚ) (days : ℕ) (F : List ℚ)
    (h1 : days ≠ 0) (h2 : 10 ≤ st.n_simulations)
    (hF : F = finalValuesOf ex Z st.n_simulations days nav (ret / 100) (vol / 100)
      (sq (1/252))) :
    predict_nav ex sq Z st nav ret vol days =
      (Except.ok {
        mean_nav := roundQ 100 (meanQ F)
        median_nav := roundQ 100 (medianQ F)
        std_dev := roundQ 100 (sq (meanQ (F.map fun x => (x - meanQ F) ^ 2)))
        expected_return_pct := roundQ 100 ((meanQ F / nav - 1) * 100)
        p5 := roundQ 100 (percentileQ F 5)
        p25 := roundQ 100 (percentileQ F 25)
        p50 := roundQ 100 (percentileQ F 50)
        p75 := roundQ 100 (percentileQ F 75)
        p95 := roundQ 100 (percentileQ F 95)
        var_95 := roundQ 100 (nav - percentileQ F 5)
        var_99 := roundQ 100 (nav - percentileQ F 1)
        cvar_95 := roundQ 100 (nav - meanQ (F.filter fun x =>
          decide (x ≤ percentileQ F 5)))
        probability_of_loss := roundQ 100 ((countBelow F nav : ℚ) /
          (st.n_simulations : ℚ) * 100)
        nSims := st.n_simulations }, st) := by
  have h2' : ¬ 10 > st.n_simulations := not_lt.mpr h2
  subst hF
  simp only [predict_nav, if_neg h1, if_neg h2']

/-- C6 (counterexample): a `predict_nav` summary with strictly positive
`probability_of_loss` and strictly negative VaR95.  With 10 paths over one
day, shocks `Z i 0 = i`, and `ex, sq` standing for the float exponential and
square root (instantiated with the monotone stand-ins `1 + x` and the
constant 1), exactly one terminal value is below the starting NAV, but the
interpolated 5th percentile lies far above it, so `var_95 < 0` while
`probability_of_loss = 10 > 0`.  This refutes "VaR95 ≥ 0 whenever
probability_of_loss > 0". -/
theorem predict_nav_var95_negative_despite_losses :
    match (predict_nav (fun x => 1 + x) (fun _ => 1) (fun i _ => (i : ℚ))
        ⟨10, 252⟩ 100 0 100 1).1 with
    | Except.ok r => r.var_95 < 0 ∧ 0 < r.probability_of_loss
    | Except.error _ => False := by
  have hfin : finalValuesOf (fun x => 1 + x) (fun i _ => (i : ℚ)) 10 1 100 (0/100) (100/100)
      ((fun _ => (1:ℚ)) (1/252)) =
      [12575/126, 25175/126, 37775/126, 50375/126, 62975/126,
       75575/126, 88175/126, 100775/126, 113375/126, 125975/126] := by
    norm_num [finalValuesOf, pathExponent, logReturn, List.range_succ,
      Finset.range_one, Finset.sum_singleton]
  rw [predict_nav_ok_eq (fun x => 1 + x) (fun _ => 1) (fun i _ => (i : ℚ))
    ⟨10, 252⟩ 100 0 100 1 _ (by norm_num) (by norm_num) hfin.symm]
  have hsort : sortedVals
      [(12575:ℚ)/126, 25175/126, 37775/126, 50375/126, 62975/126,
       75575/126, 88175/126, 100775/126, 113375/126, 125975/126] =
      [12575/126, 25175/126, 37775/126, 50375/126, 62975/126,
       75575/126, 88175/126, 100775/126, 113375/126, 125975/126] := by
    norm_num [sortedVals, List.insertionSort, List.orderedInsert]
  have hp5 : percentileQ
      [(12575:ℚ)/126, 25175/126, 37775/126, 50375/126, 62975/126,
       75575/126, 88175/126, 100775/126, 113375/126, 125975/126] 5 = 18245/126 := by
    rw [percentileQ]
    rw [hsort]
    norm_num [List.getD_cons_zero, List.getD_cons_succ]
  have hcount : countBelow
      [(12575:ℚ)/126, 25175/126, 37775/126, 50375/126, 62975/126,
       75575/126, 88175/126, 100775/126, 113375/126, 125975/126] 100 = 1 := by
    norm_num [countBelow]
  simp only [NavResult.var_95, NavResult.probability_of_loss, hp5, hcount]
  constructor
  · norm_num [roundQ, roundHalfEven]
  · norm_num [roundQ, roundHalfEven]

/-- Helper: in an ascending-sorted list, every index below the number of
elements strictly smaller than `s0` holds an element strictly smaller than
`s0` (for any default value). -/
theorem sorted_getD_lt_of_lt_count (s0 : ℚ) :
    ∀ (s : List ℚ), List.Sorted (· ≤ ·) s → ∀ (j : ℕ) (d : ℚ),
      j < (s.filter fun x => decide (x < s0)).length → s.getD j d < s0 := by
  intro s
  induction s with
  | nil => intro _ j d hj; simp at hj
  | cons x t ih =>
    intro hs j d hj
    rw [List.filter_cons] at hj
    by_cases hx : x < s0
    · rw [if_pos (by simpa using hx), List.length_cons] at hj
      cases j with
      | zero => simpa [List.getD_cons_zero] using hx
      | succ j' =>
        rw [List.getD_cons_succ]
        exact ih hs.of_cons j' d (Nat.lt_of_succ_lt_succ hj)
    · have hfe : (t.filter fun x => decide (x < s0)) = [] := by
        rw [List.filter_eq_nil_iff]
        intro y hy
        simp only [decide_eq_true_eq]
        exact fun hlt => hx (lt_of_le_of_lt (List.rel_of_sorted_cons hs y hy) hlt)
      rw [if_neg (by simpa using hx), hfe] at hj
      simp at hj

/-- Helper: `getD` at an in-range index is a member of the list. -/
theorem getD_mem_of_lt : ∀ (s : List ℚ) (j : ℕ) (d : ℚ), j < s.length → s.getD j d ∈ s := by
  intro s
  induction s with
  | nil => intro j d hj; simp at hj
  | cons x t ih =>
    intro j d hj
    cases j with
    | zero => simp [List.getD_cons_zero]
    | succ j' =>
      rw [List.getD_cons_succ]
      exact List.mem_cons_of_mem x (ih j' d (Nat.lt_of_succ_lt_succ hj))

/-- Helper: when at least `floor(0.05*(n-1)) + 2` of the `n` values lie
strictly below `s0`, the interpolated 5th percentile lies strictly below
`s0`. -/
theorem percentileQ_lt_of_many_below (xs : List ℚ) (s0 : ℚ) (hne : xs ≠ [])
    (hc : ⌊(5:ℚ)/100 * ((xs.length : ℚ) - 1)⌋.toNat + 2 ≤ countBelow xs s0) :
    percentileQ xs 5 < s0 := by
  have hperm : (sortedVals xs).Perm xs := List.perm_insertionSort _ xs
  have hsort : List.Sorted (· ≤ ·) (sortedVals xs) := List.sorted_insertionSort _ xs
  have hcnt : ((sortedVals xs).filter fun x => decide (x < s0)).length = countBelow xs s0 :=
    (hperm.filter _).length_eq
  have hn1 : 1 ≤ xs.length := List.length_pos.mpr hne
  have hL0 : (0:ℚ) ≤ (xs.length : ℚ) - 1 := by
    have : (1:ℚ) ≤ (xs.length : ℚ) := by exact_mod_cast hn1
    linarith
  have hh0 : (0:ℚ) ≤ 5/100 * ((xs.length : ℚ) - 1) := by positivity
  simp only [percentileQ]
  set s := sortedVals xs with hs
  set hq : ℚ := 5/100 * ((xs.length : ℚ) - 1) with hhq
  set i : ℕ := ⌊hq⌋.toNat with hi
  have hicast : ((i:ℚ)) = ((⌊hq⌋ : ℤ) : ℚ) := by
    rw [hi]
    exact_mod_cast Int.toNat_of_nonneg (Int.floor_nonneg.mpr hh0)
  have ha : s.getD i 0 < s0 := by
    refine sorted_getD_lt_of_lt_count s0 s hsort i 0 ?_
    rw [hcnt]; omega
  have hb : s.getD (i+1) (s.getD i 0) < s0 := by
    refine sorted_getD_lt_of_lt_count s0 s hsort (i+1) _ ?_
    rw [hcnt]; omega
  have hf0 : 0 ≤ hq - (i : ℚ) := by
    rw [hicast]
    linarith [Int.floor_le hq]
  have hf1 : hq - (i : ℚ) < 1 := by
    rw [hicast]
    linarith [Int.lt_floor_add_one hq]
  have t1 : 0 < (1 - (hq - (i:ℚ))) * (s0 - s.getD i 0) := by
    apply mul_pos <;> linarith
  have t2 : 0 ≤ (hq - (i:ℚ)) * (s0 - s.getD (i+1) (s.getD i 0)) := by
    apply mul_nonneg <;> linarith
  nlinarith [t1, t2]

/-- Helper: when no value lies strictly below `s0`, the interpolated 5th
percentile is at least `s0`. -/
theorem le_percentileQ_of_none_below (xs : List ℚ) (s0 : ℚ) (hne : xs ≠ [])
    (hc : countBelow xs s0 = 0) :
    s0 ≤ percentileQ xs 5 := by
  have hperm : (sortedVals xs).Perm xs := List.perm_insertionSort _ xs
  have hall : ∀ y ∈ sortedVals xs, s0 ≤ y := by
    intro y hy
    have hy' : y ∈ xs := hperm.mem_iff.mp hy
    by_contra hlt
    have : (xs.filter fun x => decide (x < s0)) ≠ [] := by
      intro hnil
      have := List.filter_eq_nil_iff.mp hnil y hy'
      simp only [decide_eq_true_eq] at this
      exact this (not_le.mp hlt)
    have : 0 < countBelow xs s0 := by
      rw [countBelow]
      exact List.length_pos.mpr this
    omega
  have hn1 : 1 ≤ xs.length := List.length_pos.mpr hne
  have hL0 : (0:ℚ) ≤ (xs.length : ℚ) - 1 := by
    have : (1:ℚ) ≤ (xs.length : ℚ) := by exact_mod_cast hn1
    linarith
  have hh0 : (0:ℚ) ≤ 5/100 * ((xs.length : ℚ) - 1) := by positivity
  have hlen : (sortedVals xs).length = xs.length := hperm.length_eq
  simp only [percentileQ]
  set s := sortedVals xs with hs
  set hq : ℚ := 5/100 * ((xs.length : ℚ) - 1) with hhq
  set i : ℕ := ⌊hq⌋.toNat with hi
  have hicast : ((i:ℚ)) = ((⌊hq⌋ : ℤ) : ℚ) := by
    rw [hi]
    exact_mod_cast Int.toNat_of_nonneg (Int.floor_nonneg.mpr hh0)
  have hf0 : 0 ≤ hq - (i : ℚ) := by
    rw [hicast]
    linarith [Int.floor_le hq]
  have hf1 : hq - (i : ℚ) < 1 := by
    rw [hicast]
    linarith [Int.lt_floor_add_one hq]
  have hi_lt : i < s.length := by
    have h1 : hq ≤ (xs.length:ℚ) - 1 := by
      rw [hhq]
      nlinarith [hL0]
    have h2 : ((i:ℚ)) < (xs.length:ℚ) := by
      rw [hicast]
      linarith [Int.floor_le hq]
    rw [hlen]
    exact_mod_cast h2
  have ha : s0 ≤ s.getD i 0 := hall _ (getD_mem_of_lt s i 0 hi_lt)
  have hb : s0 ≤ s.getD (i+1) (s.getD i 0) := by
    by_cases hrange : i + 1 < s.length
    · exact hall _ (getD_mem_of_lt s (i+1) _ hrange)
    · rw [List.getD_eq_default _ _ (not_lt.mp hrange)]
      exact ha
  nlinarith [mul_nonneg (by linarith : (0:ℚ) ≤ 1 - (hq - (i:ℚ)))
      (by linarith : (0:ℚ) ≤ s.getD i 0 - s0),
    mul_nonneg hf0 (by linarith : (0:ℚ) ≤ s.getD (i+1) (s.getD i 0) - s0)]

/-- C6 (amended): in a `predict_nav` summary with nonempty terminal values,
`VaR95 = s0 - percentile_5` (pre-rounding) satisfies: `VaR95 ≤ 0` whenever
`probability_of_loss = 0` (no terminal value strictly below `s0`), and
`VaR95 > 0` as soon as at least `floor(0.05*(n-1)) + 2` terminal values lie
strictly below `s0`.  The original bounds (`VaR95 ≥ 0` whenever any value is
below `s0`, `VaR95 = 0` when none is) do not hold of the interpolated
percentile. -/
theorem var95_sign_characterization (xs : List ℚ) (s0 : ℚ) (hne : xs ≠ []) :
    (countBelow xs s0 = 0 → s0 - percentileQ xs 5 ≤ 0) ∧
    (⌊(5:ℚ)/100 * ((xs.length : ℚ) - 1)⌋.toNat + 2 ≤ countBelow xs s0 →
      0 < s0 - percentileQ xs 5) :=
  ⟨fun hc => sub_nonpos.mpr (le_percentileQ_of_none_below xs s0 hne hc),
   fun hc => sub_pos.mpr (percentileQ_lt_of_many_below xs s0 hne hc)⟩

/-- C6 (witness): the sign characterization applied to the concrete list
`[1, 2]` with `s0 = 3`: both values are below `3`, and indeed the VaR95
implied by the interpolated 5th percentile is strictly positive. -/
theorem var95_sign_characterization_witness :
    ([1, 2] : List ℚ) ≠ [] ∧ 0 < (3:ℚ) - percentileQ [1, 2] 5 :=
  ⟨by simp,
   (var95_sign_characterization [1, 2] 3 (by simp)).2
     (by norm_num [countBelow])⟩

/-- C1 (counterexample): `create_portfolio_optimizer` does not renormalize
the surviving weights.  For solver output `[0.6, 0.395, 0.005]` (which sums
to 1 and respects the box constraints), the 0.005 entry is filtered out by
the 1% materiality threshold and the returned weights sum to 99.5 percent:
`|0.995 - 1| = 0.005 > 1e-6`. -/
theorem create_portfolio_allocations_not_renormalized :
    ([3/5, 79/200, 1/200] : List ℚ).sum = 1 ∧
    ((create_portfolio_allocations id [3/5, 79/200, 1/200]).map Prod.snd).sum = 199/2 ∧
    ¬ |(199:ℚ)/2 / 100 - 1| ≤ 1/1000000 := by
  refine ⟨by norm_num, ?_, by rw [abs_le]; norm_num⟩
  norm_num [create_portfolio_allocations, enumFromQ, roundQ, roundHalfEven,
    List.insertionSort, List.orderedInsert]

/-- C1 (amended): the allocation list keeps exactly the entries whose
optimized weight strictly exceeds the 1% threshold, reports each weight as
`round(weight*100, 2)` percent, and is sorted in descending order of
reported weight; the surviving weights are NOT renormalized, so they sum to
the (rounded) total of the surviving raw weights, which is below 1 whenever
anything was filtered out. -/
theorem create_portfolio_allocations_spec (fid : ℕ → ℕ) (ws : List ℚ) :
    List.Sorted (fun a b : ℕ × ℚ => b.2 ≤ a.2) (create_portfolio_allocations fid ws) ∧
    (create_portfolio_allocations fid ws).Perm
      (((enumFromQ 0 ws).filter fun p => decide ((1:ℚ)/100 < p.2)).map
        fun p => (fid p.1, roundQ 100 (p.2 * 100))) := by
  constructor
  · haveI : IsTotal (ℕ × ℚ) (fun a b : ℕ × ℚ => b.2 ≤ a.2) := ⟨fun a b => le_total b.2 a.2⟩
    haveI : IsTrans (ℕ × ℚ) (fun a b : ℕ × ℚ => b.2 ≤ a.2) :=
      ⟨fun _ _ _ h1 h2 => le_trans h2 h1⟩
    exact List.sorted_insertionSort _ _
  · exact List.perm_insertionSort _ _

/-- C3 (code divergence): at the failing input `volatility = 0` (with
`current = 100 > 0`, `expected = 110 > 0`, `risk_free_rate = 0.06`,
`time_horizon = 1`), `calculate_risk_premium` raises nothing and returns a
fully formed dict: `sharpe_ratio` is silently replaced with the fallback
`0`, and the division by zero in `d` produces `+inf`, surfaced as
`prob_beat_risk_free = 100.0` and `protection_cost = 0.0` — not as a typed
`InvalidParameter` failure.  Likewise `calculate_greeks` with `sigma = 0`
returns a dict whose `gamma` is silently `nan` (`0/0`).  This holds for
every float routine `phi`/`pdf`/`lg`/`sq`/`exq`. -/
theorem calculate_risk_premium_zero_vol_no_failure (phi pdf lg sq exq : ℚ → ℚ) :
    calculate_risk_premium phi lg sq exq 100 110 0 (3/50) 1 =
      { expected_return := F.fin 10
        risk_free_rate := F.fin 6
        risk_premium := F.fin 4
        sharpe_ratio := F.fin 0
        prob_beat_risk_free := F.fin 100
        protection_cost := F.fin 0
        protection_cost_pct := F.fin 0 } ∧
    (calculate_greeks phi pdf lg sq exq 100 100 (3/50) 0 1).gamma = F.nan := by
  constructor
  · norm_num [calculate_risk_premium, put_price, calculate_d1_d2, normCdfF, logF, sqrtF,
      expF, F.div, F.mul, F.add, F.sub, F.neg, roundFQ, roundQ, roundHalfEven]
  · norm_num [calculate_greeks, calculate_d1_d2, normCdfF, normPdfF, logF, sqrtF,
      expF, F.div, F.mul, F.add, F.sub, F.neg, roundFQ, roundQ, roundHalfEven]

/-- C9: put-call parity holds exactly in real arithmetic: for `S, K, sigma,
T > 0` and any rate `r`, `call - put = S - K*exp(-r*T)`.  Both prices are
built from the same `d1`, `d2` of `calculate_d1_d2`, so the identity needs
only the normal-CDF symmetry `phi d + phi (-d) = 1`; it holds for every
float-log/sqrt/exp stand-in `lg`, `sq`, `exq`. -/
theorem put_call_parity (phi lg sq exq : ℚ → ℚ) (S K r sigma T : ℚ)
    (hphi : ∀ d, phi d + phi (-d) = 1)
    (hS : 0 < S) (hK : 0 < K) (hsig : 0 < sigma) (hT : 0 < T) :
    call_priceR phi lg sq exq S K r sigma T - put_priceR phi lg sq exq S K r sigma T =
      S - K * exq (-(r * T)) := by
  have h1 := hphi ((lg (S / K) + (r + sigma ^ 2 / 2) * T) / (sigma * sq T))
  have h2 := hphi ((lg (S / K) + (r + sigma ^ 2 / 2) * T) / (sigma * sq T) - sigma * sq T)
  simp only [call_priceR, put_priceR, calculate_d1_d2R]
  linear_combination S * h1 - K * exq (-(r * T)) * h2

/-- C9 (witness): parity applied at `S = 1, K = 2, r = 5, sigma = 3, T = 4`
with the symmetric CDF stand-in `phi d = 1/2 + d`. -/
theorem put_call_parity_witness :
    ((∀ d : ℚ, (1/2 + d) + (1/2 + -d) = 1) ∧
      (0:ℚ) < 1 ∧ (0:ℚ) < 2 ∧ (0:ℚ) < 3 ∧ (0:ℚ) < 4) ∧
    call_priceR (fun d => 1/2 + d) id id id 1 2 5 3 4 -
      put_priceR (fun d => 1/2 + d) id id id 1 2 5 3 4 =
      1 - 2 * id (-(5 * 4)) :=
  ⟨⟨fun d => by ring, by norm_num, by norm_num, by norm_num, by norm_num⟩,
   put_call_parity (fun d => 1/2 + d) id id id 1 2 5 3 4 (fun d => by ring)
     (by norm_num) (by norm_num) (by norm_num) (by norm_num)⟩

/-- Helper: the executable determinant agrees with Mathlib's. -/
theorem detQ_eq : ∀ (n : ℕ) (A : Matrix (Fin n) (Fin n) ℚ), detQ n A = A.det
  | 0, A => by simp [detQ, Matrix.det_fin_zero]
  | n + 1, A => by
    rw [Matrix.det_succ_column_zero]
    simp only [detQ]
    refine Finset.sum_congr rfl fun i _ => ?_
    rw [detQ_eq n]

/-- Helper: the executable adjugate agrees with Mathlib's. -/
theorem adjQ_eq (n : ℕ) (A : Matrix (Fin n) (Fin n) ℚ) : adjQ n A = A.adjugate := by
  ext i j
  rw [adjQ, Matrix.of_apply, detQ_eq, Matrix.adjugate_apply]

/-- Helper: on a nonsingular matrix, the modelled `np.linalg.inv` returns
Mathlib's inverse. -/
theorem matInv_eq_inv (n : ℕ) (A : Matrix (Fin n) (Fin n) ℚ) (h : A.det ≠ 0) :
    matInv n A = some A⁻¹ := by
  rw [matInv, if_neg (by rw [detQ_eq]; exact h), adjQ_eq, detQ_eq, Matrix.inv_def,
    Ring.inverse_eq_inv]

/-- C2: when the required inverses exist, `incorporate_views` with `omega`
omitted uses the default `Omega = diag(diag(P (tauSigma) P^T))` and returns
the posterior mean
`(tauSigma⁻¹ + P^T Omega⁻¹ P)⁻¹ (tauSigma⁻¹ pi + P^T Omega⁻¹ Q)` together
with the total posterior covariance `posterior covariance-of-mean + Sigma`. -/
theorem incorporate_views_spec (n k : ℕ) (tau : ℚ) (pi : Fin n → ℚ)
    (cov_matrix : Matrix (Fin n) (Fin n) ℚ) (P : Matrix (Fin k) (Fin n) ℚ) (Q : Fin k → ℚ)
    (h1 : (tau • cov_matrix).det ≠ 0)
    (h2 : (Matrix.diagonal fun i => (P * (tau • cov_matrix) * P.transpose) i i).det ≠ 0)
    (h3 : ((tau • cov_matrix)⁻¹ + P.transpose *
        (Matrix.diagonal fun i => (P * (tau • cov_matrix) * P.transpose) i i)⁻¹ * P).det ≠ 0) :
    incorporate_views n k tau pi cov_matrix P Q none =
      some ((((tau • cov_matrix)⁻¹ + P.transpose *
            (Matrix.diagonal fun i => (P * (tau • cov_matrix) * P.transpose) i i)⁻¹ * P)⁻¹).mulVec
          (((tau • cov_matrix)⁻¹).mulVec pi +
            (P.transpose *
              (Matrix.diagonal fun i => (P * (tau • cov_matrix) * P.transpose) i i)⁻¹).mulVec Q),
        ((tau • cov_matrix)⁻¹ + P.transpose *
            (Matrix.diagonal fun i => (P * (tau • cov_matrix) * P.transpose) i i)⁻¹ * P)⁻¹ +
          cov_matrix) := by
  simp only [incorporate_views, Option.getD]
  simp only [matInv_eq_inv n _ h1, matInv_eq_inv k _ h2, matInv_eq_inv n _ h3]

/-- C2 (witness): the posterior formula applied at the concrete
one-asset/one-view input `tau = 1`, `Sigma = [[1]]`, `P = [[1]]`, `pi = [0]`,
`Q = [0]`, where all three determinants are nonzero, so the call returns a
posterior. -/
theorem incorporate_views_spec_witness :
    (((1:ℚ) • !![(1:ℚ)]).det ≠ 0 ∧
      (Matrix.diagonal fun i : Fin 1 =>
        (!![(1:ℚ)] * ((1:ℚ) • !![(1:ℚ)]) * (!![(1:ℚ)]).transpose) i i).det ≠ 0 ∧
      (((1:ℚ) • !![(1:ℚ)])⁻¹ + (!![(1:ℚ)]).transpose *
        (Matrix.diagonal fun i : Fin 1 =>
          (!![(1:ℚ)] * ((1:ℚ) • !![(1:ℚ)]) * (!![(1:ℚ)]).transpose) i i)⁻¹ *
        !![(1:ℚ)]).det ≠ 0) ∧
    (incorporate_views 1 1 1 ![0] !![(1:ℚ)] !![(1:ℚ)] ![0] none).isSome = true := by
  have e1 : !![(1:ℚ)] = (1 : Matrix (Fin 1) (Fin 1) ℚ) := by
    ext i j
    fin_cases i
    fin_cases j
    simp [Matrix.one_apply]
  have hA : ((1:ℚ) • !![(1:ℚ)]) = (1 : Matrix (Fin 1) (Fin 1) ℚ) := by
    rw [e1, one_smul]
  have h1 : ((1:ℚ) • !![(1:ℚ)]).det ≠ 0 := by
    rw [hA, Matrix.det_one]
    norm_num
  have hPMP : (!![(1:ℚ)] * ((1:ℚ) • !![(1:ℚ)]) * (!![(1:ℚ)]).transpose) =
      (1 : Matrix (Fin 1) (Fin 1) ℚ) := by
    rw [hA, e1, Matrix.transpose_one, Matrix.mul_one, Matrix.mul_one]
  have hdiag : (Matrix.diagonal fun i : Fin 1 =>
      (!![(1:ℚ)] * ((1:ℚ) • !![(1:ℚ)]) * (!![(1:ℚ)]).transpose) i i) =
      (1 : Matrix (Fin 1) (Fin 1) ℚ) := by
    rw [hPMP]
    have hfun : (fun i : Fin 1 => (1 : Matrix (Fin 1) (Fin 1) ℚ) i i) = fun _ => 1 :=
      funext fun i => Matrix.one_apply_eq i
    rw [hfun, Matrix.diagonal_one]
  have h2 : (Matrix.diagonal fun i : Fin 1 =>
      (!![(1:ℚ)] * ((1:ℚ) • !![(1:ℚ)]) * (!![(1:ℚ)]).transpose) i i).det ≠ 0 := by
    rw [hdiag, Matrix.det_one]
    norm_num
  have hprec : (((1:ℚ) • !![(1:ℚ)])⁻¹ + (!![(1:ℚ)]).transpose *
      (Matrix.diagonal fun i : Fin 1 =>
        (!![(1:ℚ)] * ((1:ℚ) • !![(1:ℚ)]) * (!![(1:ℚ)]).transpose) i i)⁻¹ *
      !![(1:ℚ)]) = (1 : Matrix (Fin 1) (Fin 1) ℚ) + 1 := by
    rw [hdiag, hA, e1, inv_one, Matrix.transpose_one, Matrix.one_mul, Matrix.mul_one]
  have h3 : (((1:ℚ) • !![(1:ℚ)])⁻¹ + (!![(1:ℚ)]).transpose *
      (Matrix.diagonal fun i : Fin 1 =>
        (!![(1:ℚ)] * ((1:ℚ) • !![(1:ℚ)]) * (!![(1:ℚ)]).transpose) i i)⁻¹ *
      !![(1:ℚ)]).det ≠ 0 := by
    rw [hprec, Matrix.det_fin_one]
    simp [Matrix.add_apply, Matrix.one_apply_eq]
  refine ⟨⟨h1, h2, h3⟩, ?_⟩
  rw [incorporate_views_spec 1 1 1 ![0] !![(1:ℚ)] !![(1:ℚ)] ![0] h1 h2 h3]
  rfl

/-- C7 (counterexample): over the full grid from `min(mu)` to `max(mu)` the
reported volatilities need not be non-decreasing.  Two funds with expected
returns 5% and 10%, volatilities 30% and 10%, correlation 0.5
(`cov = [[0.09, 0.015], [0.015, 0.01]]`): the first returned point (target
5%) has variance 0.09 and the last (target 10%) has variance 0.01, so the
volatility strictly DEcreases from `sqrt(0.09) = 30%` to `sqrt(0.01) = 10%`
as the target return increases. -/
theorem efficient_frontier_not_monotone :
    (generate_efficient_frontier2 (1/20) (1/10) (9/100) (3/200) (1/100) 50)[0]? =
      some (1/20, 9/100) ∧
    (generate_efficient_frontier2 (1/20) (1/10) (9/100) (3/200) (1/100) 50)[49]? =
      some (1/10, 1/100) ∧
    ((1:ℚ)/20 < 1/10) ∧
    Real.sqrt (1/100) < Real.sqrt (9/100) := by
  refine ⟨?_, ?_, by norm_num, Real.sqrt_lt_sqrt (by norm_num) (by norm_num)⟩
  · rw [generate_efficient_frontier2, linspaceQ]
    rw [List.getElem?_map, List.getElem?_map, List.getElem?_range (by norm_num : 0 < 50)]
    norm_num [frontierVar2, frontierWeight2, portfolio_variance2]
  · rw [generate_efficient_frontier2, linspaceQ]
    rw [List.getElem?_map, List.getElem?_map, List.getElem?_range (by norm_num : 49 < 50)]
    norm_num [frontierVar2, frontierWeight2, portfolio_variance2]

/-- C7 (amended): frontier variance (hence volatility) is non-decreasing in
the target return only from the global minimum-variance target `tstar`
onwards: for `tstar ≤ t1 ≤ t2` (with `mu1 ≠ mu2` and the positive-
semidefiniteness consequence `c11 - 2*c12 + c22 ≥ 0`),
`frontierVar2 t1 ≤ frontierVar2 t2`.  Below `tstar` (as in the
counterexample, whose `tstar` exceeds `max(mu)`) the variance decreases. -/
theorem frontierVar2_monotone_above_vertex (mu1 mu2 c11 c12 c22 tstar t1 t2 : ℚ)
    (hmu : mu1 ≠ mu2) (hS : 0 ≤ c11 - 2 * c12 + c22)
    (hv : (c11 - 2 * c12 + c22) * tstar = mu2 * (c11 - c12) + mu1 * (c22 - c12))
    (h1 : tstar ≤ t1) (h12 : t1 ≤ t2) :
    frontierVar2 mu1 mu2 c11 c12 c22 t1 ≤ frontierVar2 mu1 mu2 c11 c12 c22 t2 := by
  have hd : mu1 - mu2 ≠ 0 := sub_ne_zero.mpr hmu
  have hd2 : (0:ℚ) < (mu1 - mu2) ^ 2 := by positivity
  have key : ∀ t, frontierVar2 mu1 mu2 c11 c12 c22 t =
      ((t - mu2) ^ 2 * c11 + 2 * ((t - mu2) * (mu1 - t) * c12) + (mu1 - t) ^ 2 * c22) /
        (mu1 - mu2) ^ 2 := by
    intro t
    simp only [frontierVar2, frontierWeight2, portfolio_variance2]
    field_simp
    ring
  rw [key, key, div_le_div_iff hd2 hd2]
  have hzero : (c11 - 2 * c12 + c22) * tstar -
      (mu2 * (c11 - c12) + mu1 * (c22 - c12)) = 0 := by
    rw [hv]
    ring
  have hid : ((t2 - mu2) ^ 2 * c11 + 2 * ((t2 - mu2) * (mu1 - t2) * c12) +
        (mu1 - t2) ^ 2 * c22) -
      ((t1 - mu2) ^ 2 * c11 + 2 * ((t1 - mu2) * (mu1 - t1) * c12) +
        (mu1 - t1) ^ 2 * c22) =
      (c11 - 2 * c12 + c22) * ((t2 - t1) * (t1 + t2 - 2 * tstar)) +
        2 * (t2 - t1) * ((c11 - 2 * c12 + c22) * tstar -
          (mu2 * (c11 - c12) + mu1 * (c22 - c12))) := by
    ring
  rw [hzero] at hid
  have hstep : 0 ≤ (c11 - 2 * c12 + c22) * ((t2 - t1) * (t1 + t2 - 2 * tstar)) :=
    mul_nonneg hS (mul_nonneg (by linarith) (by linarith))
  nlinarith [hstep, hid, hd2]

/-- C7 (witness): monotonicity applied at the counterexample covariance,
whose minimum-variance target is `tstar = 29/280`, with
`t1 = 29/280 ≤ t2 = 1`. -/
theorem frontierVar2_monotone_above_vertex_witness :
    (((1:ℚ)/20 ≠ 1/10) ∧ (0:ℚ) ≤ 9/100 - 2 * (3/200) + 1/100 ∧
      ((9:ℚ)/100 - 2 * (3/200) + 1/100) * (29/280) =
        (1/10) * (9/100 - 3/200) + (1/20) * (1/100 - 3/200) ∧
      (29:ℚ)/280 ≤ 29/280 ∧ (29:ℚ)/280 ≤ 1) ∧
    frontierVar2 (1/20) (1/10) (9/100) (3/200) (1/100) (29/280) ≤
      frontierVar2 (1/20) (1/10) (9/100) (3/200) (1/100) 1 :=
  ⟨⟨by norm_num, by norm_num, by norm_num, by norm_num, by norm_num⟩,
   frontierVar2_monotone_above_vertex (1/20) (1/10) (9/100) (3/200) (1/100) (29/280) (29/280) 1
     (by norm_num) (by norm_num) (by norm_num) (by norm_num) (by norm_num)⟩

end MLModels
